import Mathlib

/-!
Verification development for the rag-engine repository.

The embedding below translates the pure logic of src/ingest.py and
src/rag_chain.py into Lean. External capabilities (the PyPDF loader, the
recursive character splitter internals, the embedding provider, the Qdrant
client, the LLM) are modelled as explicit parameters or as outcome values
(Except / Bool), exactly at the boundaries where the Python code calls them;
the control flow, counters, metadata stamping, manifest updates and error
handling around those calls are translated from the source.
-/

namespace RagEngine

/-- Per-chunk / per-document metadata dictionary. The Python code uses a
permissive dict; the fields below are exactly the keys the source ever
writes (PyPDFLoader writes source and page; ingest.py lines 91-96 and
167-171 write the rest). Absent keys are none. -/
structure Metadata where
  source : Option String := none
  page : Option Nat := none
  source_file : Option String := none
  file_hash : Option String := none
  file_size : Option Nat := none
  chunk_index : Option Nat := none
  total_chunks : Option Nat := none
  chunk_size : Option Nat := none
  ingestion_date : Option String := none
deriving DecidableEq, Repr

/-- langchain Document: page content plus metadata (ingest.py line 9). -/
structure Document where
  page_content : String
  metadata : Metadata
deriving DecidableEq, Repr

/-- A text splitter configuration (ingest.py lines 67-78); the recursive
splitting itself is library code and is passed in as a capability. -/
structure SplitterPolicy where
  chunk_size : Nat
  chunk_overlap : Nat
deriving DecidableEq, Repr

/-- The default splitter: chunk_size=800, chunk_overlap=100 (ingest.py 68-72). -/
def defaultSplitter : SplitterPolicy := { chunk_size := 800, chunk_overlap := 100 }

/-- The large-document splitter: chunk_size=1200, chunk_overlap=150 (ingest.py 73-77). -/
def largeSplitter : SplitterPolicy := { chunk_size := 1200, chunk_overlap := 150 }

/-- Splitter selection by document length (ingest.py line 85):
splitters[large] if doc_length > 5000 else splitters[default]. -/
def chooseSplitter (doc_length : Nat) : SplitterPolicy :=
  if doc_length > 5000 then largeSplitter else defaultSplitter

/-- enhanced_text_splitting (ingest.py lines 63-100). The library call
splitter.split_documents is abstracted as the capability
split : SplitterPolicy -> String -> List String returning the chunk texts;
the langchain splitter copies the parent document metadata onto every
chunk, which the map reproduces. The chunk-level metadata update of
lines 90-96 is translated literally; datetime.now() is the parameter now. -/
def enhanced_text_splitting (split : SplitterPolicy → String → List String)
    (now : String) (documents : List Document) : List Document :=
  documents.flatMap (fun doc =>
    let splitter := chooseSplitter doc.page_content.length
    let chunks : List Document :=
      (split splitter doc.page_content).map
        (fun t => { page_content := t, metadata := doc.metadata })
    chunks.enum.map (fun p =>
      { p.2 with metadata :=
        { p.2.metadata with
          chunk_index := some p.1,
          total_chunks := some chunks.length,
          chunk_size := some p.2.page_content.length,
          ingestion_date := some now } }))

/-- Supported extensions from config.py lines 50-52 (RAGConfig post init). -/
def supported_extensions : List String := [".pdf", ".txt", ".md", ".docx"]

/-- One manifest entry (ingest.py lines 178-182): hash, processed_date,
chunks_count. -/
structure LogEntry where
  hash : String
  processed_date : String
  chunks_count : Nat
deriving DecidableEq, Repr

/-- The processed-files log (processed_files.json): a JSON object, modelled
as an ordered association list as Python dicts preserve insertion order. -/
def Manifest : Type := List (String × LogEntry)

instance : DecidableEq Manifest := inferInstanceAs (DecidableEq (List (String × LogEntry)))

instance : Repr Manifest := inferInstanceAs (Repr (List (String × LogEntry)))

/-- Dictionary lookup, processed_log[file_key]. -/
def lookupLog : Manifest → String → Option LogEntry
  | [], _ => none
  | (k, e) :: rest, key => if key = k then some e else lookupLog rest key

/-- Dictionary assignment, processed_log[file_key] = entry: replace in place
if the key exists, append otherwise. -/
def setEntry : Manifest → String → LogEntry → Manifest
  | [], k, e => [(k, e)]
  | (k1, e1) :: rest, k, e =>
      if k1 = k then (k, e) :: rest else (k1, e1) :: setEntry rest k e

/-- The three outcomes of the change-detection check. -/
inductive Decision where
  | skip
  | reprocess
  | new
deriving DecidableEq, Repr

/-- Change detection (ingest.py lines 148-158): the branch
if not force_reprocess and file_key in processed_log, then comparing the
stored hash; every other path falls to the new-file branch. -/
def decideFile (force_reprocess : Bool) (processed_log : Manifest)
    (file_key file_hash : String) : Decision :=
  match lookupLog processed_log file_key with
  | some entry =>
      if force_reprocess then .new
      else if entry.hash = file_hash then .skip else .reprocess
  | none => .new

/-- Python str.endswith, modelled as a suffix test on the character
sequence of the string. -/
def strEndsWith (s suffix : String) : Bool :=
  List.isSuffixOf suffix.data s.data

/-- The statistics dictionary initialised at ingest.py lines 115-122. -/
structure Stats where
  total_files : Nat := 0
  new_files : Nat := 0
  updated_files : Nat := 0
  skipped_files : Nat := 0
  total_chunks : Nat := 0
  processing_errors : List String := []
deriving DecidableEq, Repr

/-- One candidate file found by the os.walk enumeration (ingest.py 134-138).
file_path is the absolute path, file_key the path relative to the folder.
The two filesystem calls that can raise inside the per-file try block are
outcome values: hashResult models get_file_hash (md5 of the bytes, or an
OSError), loadResult models PyPDFLoader(...).load() returning the page
documents or raising. file_size models os.path.getsize. -/
structure CandidateFile where
  file_path : String
  file_key : String
  hashResult : Except String String
  loadResult : Except String (List Document)
  file_size : Nat

/-- In-memory state threaded through the per-file loop of
ingest_documents_with_deduplication: the mutated processed_log, the
accumulated all_chunks, and the stats counters. -/
structure LoopState where
  processed_log : Manifest
  all_chunks : List Document
  stats : Stats

/-- Append one message to stats.processing_errors (ingest.py lines 186-189). -/
def recordError (st : LoopState) (msg : String) : LoopState :=
  { st with stats :=
      { st.stats with processing_errors := st.stats.processing_errors ++ [msg] } }

/-- The body of the per-file loop (ingest.py lines 142-189). Any exception
from hashing or loading is caught and recorded; counting happens before
loading; only paths ending in .pdf are loaded, chunked, stamped with
file-level metadata and recorded in the log (line 161). -/
def processFile (split : SplitterPolicy → String → List String) (now : String)
    (force_reprocess : Bool) (st : LoopState) (f : CandidateFile) : LoopState :=
  match f.hashResult with
  | .error e => recordError st ("Error processing " ++ f.file_path ++ ": " ++ e)
  | .ok file_hash =>
    match decideFile force_reprocess st.processed_log f.file_key file_hash with
    | .skip =>
        { st with stats := { st.stats with skipped_files := st.stats.skipped_files + 1 } }
    | d =>
      let stats1 :=
        match d with
        | .reprocess => { st.stats with updated_files := st.stats.updated_files + 1 }
        | _ => { st.stats with new_files := st.stats.new_files + 1 }
      if strEndsWith f.file_path ".pdf" then
        match f.loadResult with
        | .error e =>
            { st with stats :=
                { stats1 with processing_errors :=
                    stats1.processing_errors ++
                      ["Error processing " ++ f.file_path ++ ": " ++ e] } }
        | .ok docs =>
            let docs2 := docs.map (fun doc =>
              { doc with metadata :=
                { doc.metadata with
                  source_file := some f.file_key,
                  file_hash := some file_hash,
                  file_size := some f.file_size } })
            let chunks := enhanced_text_splitting split now docs2
            { processed_log :=
                setEntry st.processed_log f.file_key
                  { hash := file_hash, processed_date := now,
                    chunks_count := chunks.length },
              all_chunks := st.all_chunks ++ chunks,
              stats := stats1 }
      else { st with stats := stats1 }

/-- The observable outcome of one ingestion run: the returned stats, whether
save_processed_files_log ran, the manifest file on disk afterwards, and the
points stored in the Qdrant collection afterwards. -/
structure RunResult where
  stats : Stats
  savedManifest : Bool
  persistedManifest : Manifest
  index : List Document
deriving DecidableEq, Repr

/-- ingest_documents_with_deduplication (ingest.py lines 102-216), from the
point where the manifest has been loaded. diskManifest is the loaded log,
index the points already in the collection. Qdrant.from_documents (line 197)
adds freshly embedded points with new ids to the collection, so on success
the collection holds the old points plus the new chunks; upsertOk = false
models the embedding or upsert call raising, in which case the error is
recorded and the log is not saved. When no chunks accumulated, the run
returns early (lines 191-193) without touching index or log. -/
def runIngestion (split : SplitterPolicy → String → List String) (now : String)
    (files : List CandidateFile) (force_reprocess : Bool)
    (diskManifest : Manifest) (index : List Document) (upsertOk : Bool) : RunResult :=
  let init : LoopState :=
    { processed_log := diskManifest, all_chunks := [],
      stats := { total_files := files.length } }
  let fin := files.foldl (processFile split now force_reprocess) init
  if fin.all_chunks.isEmpty then
    { stats := fin.stats, savedManifest := false,
      persistedManifest := diskManifest, index := index }
  else if upsertOk then
    { stats := { fin.stats with total_chunks := fin.all_chunks.length },
      savedManifest := true, persistedManifest := fin.processed_log,
      index := index ++ fin.all_chunks }
  else
    { stats := { fin.stats with processing_errors :=
        fin.stats.processing_errors ++ ["Error ingesting into Qdrant"] },
      savedManifest := false, persistedManifest := diskManifest, index := index }

/-- The three possible states of processed_files.json on disk. -/
inductive ManifestFile where
  | absent
  | wellFormed (log : Manifest)
  | corrupt (err : String)

/-- load_processed_files_log (ingest.py lines 27-32): missing file yields
the empty dict; an existing file is passed to json.load, which raises
JSONDecodeError on corrupt contents - there is no handler around it. -/
def load_processed_files_log : ManifestFile → Except String Manifest
  | .absent => .ok []
  | .wellFormed log => .ok log
  | .corrupt err => .error err

/-- The full entry point (ingest.py line 113 onwards): the log is loaded
outside any try block, so a corrupt manifest file propagates its parse
error out of the whole run. -/
def ingestRun (split : SplitterPolicy → String → List String) (now : String)
    (manifestFile : ManifestFile) (files : List CandidateFile)
    (force_reprocess : Bool) (index : List Document) (upsertOk : Bool) :
    Except String RunResult :=
  match load_processed_files_log manifestFile with
  | .error e => .error e
  | .ok log => .ok (runIngestion split now files force_reprocess log index upsertOk)

/-- A chat message (rag_chain.py line 6). -/
structure Message where
  role : String
  content : String
deriving DecidableEq, Repr

/-- What the qa_chain call of rag_chain.py line 116 returns on success. -/
structure ChainResult where
  answer : String
  source_documents : List Document
deriving DecidableEq, Repr

/-- The metadata dict built at rag_chain.py lines 123-128 and 138; absent
keys are none. The monetary cost, a Python float from the callback, is
abstracted to a natural count in fixed sub-cent units. -/
structure QueryMetadata where
  timestamp : Option String := none
  tokens_used : Option Nat := none
  cost : Option Nat := none
  num_sources : Option Nat := none
  error : Option String := none
deriving DecidableEq, Repr

/-- The dictionary returned by AdvancedRAGChain.query. -/
structure QueryResult where
  answer : String
  source_documents : List Document
  chat_history : List Message
  metadata : QueryMetadata
deriving DecidableEq, Repr

/-- AdvancedRAGChain.query (rag_chain.py lines 109-139). The entire chain
invocation (retrieval, compression, generation) sits inside one try block;
its outcome is the parameter chainResult: ok with answer and sources, or
error carrying str(e) of whatever the providers raised. memoryMessages,
totalTokens and totalCost model self.memory.chat_memory.messages and the
callback counters read on the success path. The function is total: every
outcome maps to a QueryResult, never a raised exception. -/
def query (now : String) (chainResult : Except String ChainResult)
    (memoryMessages : List Message) (totalTokens totalCost : Nat) : QueryResult :=
  match chainResult with
  | .ok r =>
      { answer := r.answer,
        source_documents := r.source_documents,
        chat_history := memoryMessages,
        metadata :=
          { timestamp := some now,
            tokens_used := some totalTokens,
            cost := some totalCost,
            num_sources := some r.source_documents.length } }
  | .error e =>
      { answer := "Sorry, I encountered an error: " ++ e,
        source_documents := [],
        chat_history := [],
        metadata := { error := some e } }

/-- The memory token budget: max_token_limit=800 at rag_chain.py line 70,
memory_max_tokens at config.py line 33. -/
def memory_max_tokens : Nat := 800

/-- One conversation turn: a question/answer pair. -/
structure Turn where
  question : String
  answer : String
deriving DecidableEq, Repr

/-- Modelled from the spec: the conversation memory itself is langchain
ConversationSummaryBufferMemory, configured at rag_chain.py lines 68-74 but
not implemented in this repository; this state follows spec section 4.8:
verbatim recent turns plus a running summary string. -/
structure MemoryState where
  summary : String
  recent_turns : List Turn
deriving DecidableEq, Repr

/-- Modelled from the spec: the running token estimate of verbatim turns
plus summary, with the deterministic tokenizer abstracted as the counting
functions estTurn and estText. -/
def totalTokenEstimate (estTurn : Turn → Nat) (estText : String → Nat)
    (st : MemoryState) : Nat :=
  (st.recent_turns.map estTurn).sum + estText st.summary

/-- Modelled from the spec: while the estimate exceeds memory_max_tokens,
fold the oldest verbatim turn into the summary through the summarization
capability and keep the rest; turns are only ever moved into a summarize
call, never dropped. -/
def pruneMemory (estTurn : Turn → Nat) (estText : String → Nat)
    (summarize : Turn → String → String) : List Turn → String → MemoryState
  | [], s => { summary := s, recent_turns := [] }
  | t :: rest, s =>
      if totalTokenEstimate estTurn estText { summary := s, recent_turns := t :: rest }
          ≤ memory_max_tokens then
        { summary := s, recent_turns := t :: rest }
      else
        pruneMemory estTurn estText summarize rest (summarize t s)

/-- Modelled from the spec: append(question, answer) adds the turn and then
restores the budget by folding oldest turns into the summary. -/
def appendTurn (estTurn : Turn → Nat) (estText : String → Nat)
    (summarize : Turn → String → String) (st : MemoryState) (t : Turn) : MemoryState :=
  pruneMemory estTurn estText summarize (st.recent_turns ++ [t]) st.summary

/-- Iterated extension of a summary by a sequence of folded turns. -/
def foldSummary (summarize : Turn → String → String) (ts : List Turn) (s : String) : String :=
  ts.foldl (fun acc t => summarize t acc) s

/-- A splitter capability that returns the whole text as a single chunk,
used to evaluate the pipeline on concrete inputs. -/
def splitWhole : SplitterPolicy → String → List String := fun _ s => [s]

/-- A splitter capability matching the langchain behaviour that empty text
yields no chunks, as for a scanned PDF page with no text layer. -/
def splitOrEmpty : SplitterPolicy → String → List String :=
  fun _ s => if s = "" then [] else [s]

/-- Version 1 of a concrete one-page PDF file. -/
def fileV1 : CandidateFile :=
  { file_path := "data/a.pdf", file_key := "a.pdf",
    hashResult := .ok "h1",
    loadResult := .ok [{ page_content := "old content", metadata := {} }],
    file_size := 11 }

/-- The same file after a one-byte edit: new hash, new content. -/
def fileV2 : CandidateFile :=
  { file_path := "data/a.pdf", file_key := "a.pdf",
    hashResult := .ok "h2",
    loadResult := .ok [{ page_content := "new content", metadata := {} }],
    file_size := 11 }

/-- First ingestion run over the version-1 file, from an empty index and an
empty manifest, with the upsert succeeding. -/
def runOne : RunResult := runIngestion splitWhole "T1" [fileV1] false [] [] true

/-- Second ingestion run after the edit, from the state the first run left. -/
def runTwo : RunResult :=
  runIngestion splitWhole "T2" [fileV2] false runOne.persistedManifest runOne.index true

end RagEngine

namespace RagEngine

/-- Lookup after assignment at the same key returns the assigned entry. -/
theorem lookupLog_setEntry_self (m : Manifest) (k : String) (e : LogEntry) :
    lookupLog (setEntry m k e) k = some e := by
  induction m with
  | nil => simp [setEntry, lookupLog]
  | cons p rest ih =>
      by_cases hk : p.1 = k
      · simp [setEntry, hk, lookupLog]
      · have hk2 : ¬(k = p.1) := fun h => hk h.symm
        simp [setEntry, hk, lookupLog, hk2, ih]

/-- Lookup after assignment at a different key is unchanged. -/
theorem lookupLog_setEntry_ne (m : Manifest) (k k2 : String) (e : LogEntry)
    (h : k2 ≠ k) : lookupLog (setEntry m k e) k2 = lookupLog m k2 := by
  induction m with
  | nil => simp [setEntry, lookupLog, h]
  | cons p rest ih =>
      by_cases hk : p.1 = k
      · subst hk
        simp [setEntry, lookupLog, h]
      · by_cases h2 : k2 = p.1 <;> simp [setEntry, hk, lookupLog, h2, ih]

/-- C10: a document strictly longer than the 5000-character threshold is
split with chunk_size 1200 and overlap 150, and a document of length at
most 5000, including exactly 5000, is split with chunk_size 800 and
overlap 100. -/
theorem chunking_policy_selection (n : Nat) :
    (5000 < n → chooseSplitter n = { chunk_size := 1200, chunk_overlap := 150 }) ∧
    (n ≤ 5000 → chooseSplitter n = { chunk_size := 800, chunk_overlap := 100 }) := by
  constructor
  · intro h
    simp [chooseSplitter, largeSplitter, h]
  · intro h
    simp [chooseSplitter, defaultSplitter, Nat.not_lt.mpr h]

/-- Witness for C10 at the two boundary lengths 5001 and 5000. -/
theorem chunking_policy_selection_witness :
    chooseSplitter 5001 = { chunk_size := 1200, chunk_overlap := 150 } ∧
    chooseSplitter 5000 = { chunk_size := 800, chunk_overlap := 100 } :=
  ⟨(chunking_policy_selection 5001).1 (by decide),
   (chunking_policy_selection 5000).2 (by decide)⟩

/-- C4 counterexample: with force set, a file whose key is present in the
manifest with a different stored hash is decided new, not reprocess, so the
claim that such a file is always reprocessed is false on the code. -/
theorem decideFile_forced_modified_is_new :
    lookupLog [("a.pdf", { hash := "h1", processed_date := "t0", chunks_count := 3 })] "a.pdf"
      = some { hash := "h1", processed_date := "t0", chunks_count := 3 } ∧
    ("h1" : String) ≠ "h2" ∧
    decideFile true [("a.pdf", { hash := "h1", processed_date := "t0", chunks_count := 3 })]
      "a.pdf" "h2" = .new := by
  refine ⟨rfl, by decide, rfl⟩

/-- C4 amended: a file is skipped iff force is not set and its key is stored
with the current hash; reprocessed (counted as updated) iff force is not set
and its key is stored with a different hash; new otherwise - in particular,
when force is set every candidate is treated as new even if present. -/
theorem decideFile_characterization (force : Bool) (log : Manifest) (key h : String) :
    (decideFile force log key h = .skip ↔
      force = false ∧ ∃ e, lookupLog log key = some e ∧ e.hash = h) ∧
    (decideFile force log key h = .reprocess ↔
      force = false ∧ ∃ e, lookupLog log key = some e ∧ e.hash ≠ h) ∧
    (decideFile force log key h = .new ↔
      force = true ∨ lookupLog log key = none) := by
  unfold decideFile
  cases hl : lookupLog log key with
  | none => cases force <;> simp
  | some e =>
      cases force <;> by_cases he : e.hash = h <;> simp [he]

/-- C2: when the chain invocation fails with any provider error, query
returns a result whose answer explains the failure, whose source list is
empty and whose metadata carries the error; being a total function, query
raises nothing past its boundary. -/
theorem query_failure_contained (now : String) (chainResult : Except String ChainResult)
    (mem : List Message) (tok cost : Nat) (e : String)
    (h : chainResult = .error e) :
    (query now chainResult mem tok cost).answer = "Sorry, I encountered an error: " ++ e ∧
    (query now chainResult mem tok cost).source_documents = [] ∧
    (query now chainResult mem tok cost).metadata.error = some e := by
  subst h
  exact ⟨rfl, rfl, rfl⟩

/-- Witness for C2 at a concrete simulated generation failure. -/
theorem query_failure_contained_witness :
    (query "T" (.error "rate limit") [] 0 0).answer
        = "Sorry, I encountered an error: rate limit" ∧
    (query "T" (.error "rate limit") [] 0 0).source_documents = [] ∧
    (query "T" (.error "rate limit") [] 0 0).metadata.error = some "rate limit" :=
  query_failure_contained "T" (.error "rate limit") [] 0 0 "rate limit" rfl

/-- C7: a corrupt processed_files.json crashes the whole ingestion run,
because json.load raises outside every try block, while a missing file is
treated as an empty manifest; the claimed fail-closed handling of corrupt
contents does not exist in the code. -/
theorem corrupt_manifest_crashes_ingestion :
    ingestRun splitWhole "T" (.corrupt "Expecting value: line 1 column 1 (char 0)")
        [] false [] true
      = .error "Expecting value: line 1 column 1 (char 0)" ∧
    load_processed_files_log .absent = .ok ([] : Manifest) :=
  ⟨rfl, rfl⟩

/-- C1: re-ingesting a modified one-chunk file is counted as updated, but
the collection afterwards holds two vectors carrying the source key a.pdf,
one still stamped with the superseded hash h1, because the pipeline adds
fresh points without deleting the prior ones; the claimed replacement
semantics fails on the code. -/
theorem reingestion_leaves_stale_vectors :
    runTwo.stats.updated_files = 1 ∧
    runTwo.index.length = 2 ∧
    (∀ p ∈ runTwo.index, p.metadata.source_file = some "a.pdf") ∧
    (∃ p ∈ runTwo.index, p.metadata.file_hash = some "h1") ∧
    (∃ p ∈ runTwo.index, p.metadata.file_hash = some "h2") := by
  decide

/-- C6 counterexample: a new candidate file with the requested and supported
extension .txt is counted as a new file, yet nothing is loaded, no chunk is
produced, no vector is stored and no manifest entry is recorded, because
only paths ending in .pdf are loaded. -/
theorem txt_file_counted_but_not_ingested :
    ".txt" ∈ supported_extensions ∧
    (runIngestion splitWhole "T"
      [{ file_path := "data/notes.txt", file_key := "notes.txt",
         hashResult := .ok "h1",
         loadResult := .ok [{ page_content := "hello world", metadata := {} }],
         file_size := 11 }] false [] [] true).stats.new_files = 1 ∧
    (runIngestion splitWhole "T"
      [{ file_path := "data/notes.txt", file_key := "notes.txt",
         hashResult := .ok "h1",
         loadResult := .ok [{ page_content := "hello world", metadata := {} }],
         file_size := 11 }] false [] [] true).stats.processing_errors = [] ∧
    (runIngestion splitWhole "T"
      [{ file_path := "data/notes.txt", file_key := "notes.txt",
         hashResult := .ok "h1",
         loadResult := .ok [{ page_content := "hello world", metadata := {} }],
         file_size := 11 }] false [] [] true).index = [] ∧
    lookupLog (runIngestion splitWhole "T"
      [{ file_path := "data/notes.txt", file_key := "notes.txt",
         hashResult := .ok "h1",
         loadResult := .ok [{ page_content := "hello world", metadata := {} }],
         file_size := 11 }] false [] [] true).persistedManifest "notes.txt" = none := by
  decide

/-- C5 counterexample: a PDF whose single page has no text layer yields no
chunks, so the first run returns early without saving the manifest, and the
second run over the unchanged folder reports one new file instead of one
skipped file. -/
theorem unchanged_second_run_not_skipped_when_no_chunks :
    (runIngestion splitOrEmpty "T2"
      [{ file_path := "data/scan.pdf", file_key := "scan.pdf",
         hashResult := .ok "h1",
         loadResult := .ok [{ page_content := "", metadata := {} }],
         file_size := 5 }] false
      (runIngestion splitOrEmpty "T1"
        [{ file_path := "data/scan.pdf", file_key := "scan.pdf",
           hashResult := .ok "h1",
           loadResult := .ok [{ page_content := "", metadata := {} }],
           file_size := 5 }] false [] [] true).persistedManifest
      (runIngestion splitOrEmpty "T1"
        [{ file_path := "data/scan.pdf", file_key := "scan.pdf",
           hashResult := .ok "h1",
           loadResult := .ok [{ page_content := "", metadata := {} }],
           file_size := 5 }] false [] [] true).index true).stats.new_files = 1 ∧
    (runIngestion splitOrEmpty "T2"
      [{ file_path := "data/scan.pdf", file_key := "scan.pdf",
         hashResult := .ok "h1",
         loadResult := .ok [{ page_content := "", metadata := {} }],
         file_size := 5 }] false
      (runIngestion splitOrEmpty "T1"
        [{ file_path := "data/scan.pdf", file_key := "scan.pdf",
           hashResult := .ok "h1",
           loadResult := .ok [{ page_content := "", metadata := {} }],
           file_size := 5 }] false [] [] true).persistedManifest
      (runIngestion splitOrEmpty "T1"
        [{ file_path := "data/scan.pdf", file_key := "scan.pdf",
           hashResult := .ok "h1",
           loadResult := .ok [{ page_content := "", metadata := {} }],
           file_size := 5 }] false [] [] true).index true).stats.skipped_files = 0 := by
  decide

/-- C3: the manifest file is written back if and only if the run reached a
successful batch upsert of a nonempty chunk list; in particular a failed
embed or upsert leaves the persisted manifest exactly as it was before the
run, so a retry reprocesses the same files. -/
theorem manifest_persisted_only_on_success
    (split : SplitterPolicy → String → List String) (now : String)
    (files : List CandidateFile) (force : Bool)
    (diskManifest : Manifest) (index : List Document) (upsertOk : Bool) :
    (upsertOk = false →
      (runIngestion split now files force diskManifest index upsertOk).persistedManifest
          = diskManifest ∧
      (runIngestion split now files force diskManifest index upsertOk).savedManifest
          = false ∧
      (runIngestion split now files force diskManifest index upsertOk).index = index) ∧
    ((runIngestion split now files force diskManifest index upsertOk).savedManifest = true →
      upsertOk = true) := by
  unfold runIngestion
  by_cases h : (files.foldl (processFile split now force)
      { processed_log := diskManifest, all_chunks := [],
        stats := { total_files := files.length } }).all_chunks.isEmpty
  · simp [h]
  · cases upsertOk <;> simp [h]

/-- Witness for C3: with the upsert failing, the persisted manifest and the
index are untouched. -/
theorem manifest_persisted_only_on_success_witness :
    (runIngestion splitWhole "T" [fileV1] false [] [] false).persistedManifest = [] ∧
    (runIngestion splitWhole "T" [fileV1] false [] [] false).savedManifest = false ∧
    (runIngestion splitWhole "T" [fileV1] false [] [] false).index = [] :=
  (manifest_persisted_only_on_success splitWhole "T" [fileV1] false [] [] false).1 rfl

/-- Second components of members of an enumerated list are members of the
list. -/
theorem snd_mem_of_mem_enumFrom {α : Type} :
    ∀ {l : List α} {n : Nat} {p : Nat × α}, p ∈ List.enumFrom n l → p.2 ∈ l := by
  intro l
  induction l with
  | nil => intro n p hp; simp [List.enumFrom] at hp
  | cons a t ih =>
      intro n p hp
      rw [List.enumFrom] at hp
      rcases List.mem_cons.mp hp with h | h
      · subst h; exact List.mem_cons_self a t
      · exact List.mem_cons_of_mem _ (ih h)

/-- File-level metadata stamped on the page documents survives splitting:
the chunk-level metadata update touches only the chunk fields. -/
theorem enhanced_text_splitting_file_meta
    (split : SplitterPolicy → String → List String) (now : String)
    (docs : List Document) (v1 v2 : Option String) (v3 : Option Nat)
    (hdocs : ∀ d ∈ docs, d.metadata.source_file = v1 ∧ d.metadata.file_hash = v2 ∧
      d.metadata.file_size = v3) :
    ∀ c ∈ enhanced_text_splitting split now docs,
      c.metadata.source_file = v1 ∧ c.metadata.file_hash = v2 ∧
      c.metadata.file_size = v3 := by
  intro c hc
  unfold enhanced_text_splitting at hc
  rw [List.mem_flatMap] at hc
  obtain ⟨doc, hdoc, hc⟩ := hc
  rw [List.mem_map] at hc
  obtain ⟨p, hp, rfl⟩ := hc
  have hmem := snd_mem_of_mem_enumFrom hp
  rw [List.mem_map] at hmem
  obtain ⟨t, ht, h2⟩ := hmem
  obtain ⟨hv1, hv2, hv3⟩ := hdocs doc hdoc
  rw [← h2]
  exact ⟨hv1, hv2, hv3⟩

/-- C6 amended: a new or changed candidate file whose path ends in .pdf is
loaded, chunked, every chunk is stamped with the source key, the file hash
and the file size, the chunks are accumulated, the file is counted, and the
in-memory manifest records the file with its hash and chunk count; files of
the other requested extensions never reach this branch. -/
theorem pdf_file_fully_processed
    (split : SplitterPolicy → String → List String) (now : String) (force : Bool)
    (st : LoopState) (f : CandidateFile) (h : String) (docs : List Document)
    (hpdf : strEndsWith f.file_path ".pdf" = true)
    (hh : f.hashResult = .ok h)
    (hl : f.loadResult = .ok docs)
    (hd : decideFile force st.processed_log f.file_key h ≠ .skip) :
    ∃ chunks : List Document,
      chunks = enhanced_text_splitting split now (docs.map (fun doc =>
        { doc with metadata := { doc.metadata with
            source_file := some f.file_key, file_hash := some h,
            file_size := some f.file_size } })) ∧
      (processFile split now force st f).all_chunks = st.all_chunks ++ chunks ∧
      lookupLog (processFile split now force st f).processed_log f.file_key =
        some { hash := h, processed_date := now, chunks_count := chunks.length } ∧
      (∀ c ∈ chunks, c.metadata.source_file = some f.file_key ∧
        c.metadata.file_hash = some h ∧ c.metadata.file_size = some f.file_size) ∧
      (decideFile force st.processed_log f.file_key h = .new →
        (processFile split now force st f).stats.new_files = st.stats.new_files + 1) ∧
      (decideFile force st.processed_log f.file_key h = .reprocess →
        (processFile split now force st f).stats.updated_files
          = st.stats.updated_files + 1) := by
  refine ⟨_, rfl, ?_⟩
  have hmeta := enhanced_text_splitting_file_meta split now
    (docs.map (fun doc =>
      { doc with metadata := { doc.metadata with
          source_file := some f.file_key, file_hash := some h,
          file_size := some f.file_size } }))
    (some f.file_key) (some h) (some f.file_size)
    (by
      intro d hd2
      rw [List.mem_map] at hd2
      obtain ⟨d0, _, rfl⟩ := hd2
      exact ⟨rfl, rfl, rfl⟩)
  obtain ⟨fp, fk, hr, lr, fs⟩ := f
  dsimp only at hh hl hpdf hd hmeta ⊢
  subst hh
  subst hl
  cases hdec : decideFile force st.processed_log fk h with
  | skip => exact absurd hdec hd
  | reprocess =>
      refine ⟨?_, ?_, hmeta, fun hc => Decision.noConfusion hc, fun _ => ?_⟩ <;>
        simp only [processFile, hdec, hpdf, if_true] <;>
        first
          | rfl
          | exact lookupLog_setEntry_self _ _ _
  | new =>
      refine ⟨?_, ?_, hmeta, fun _ => ?_, fun hc => Decision.noConfusion hc⟩ <;>
        simp only [processFile, hdec, hpdf, if_true] <;>
        first
          | rfl
          | exact lookupLog_setEntry_self _ _ _

/-- Witness for C6 on a concrete new PDF file processed from an empty
state. -/
theorem pdf_file_fully_processed_witness :
    ∃ chunks : List Document,
      chunks = enhanced_text_splitting splitWhole "T1"
        ([({ page_content := "old content", metadata := {} } : Document)].map (fun doc =>
          { doc with metadata := { doc.metadata with
              source_file := some "a.pdf", file_hash := some "h1",
              file_size := some 11 } })) ∧
      (processFile splitWhole "T1" false
          { processed_log := [], all_chunks := [], stats := {} } fileV1).all_chunks
        = [] ++ chunks ∧
      lookupLog (processFile splitWhole "T1" false
          { processed_log := [], all_chunks := [], stats := {} } fileV1).processed_log
          "a.pdf"
        = some { hash := "h1", processed_date := "T1", chunks_count := chunks.length } ∧
      (∀ c ∈ chunks, c.metadata.source_file = some "a.pdf" ∧
        c.metadata.file_hash = some "h1" ∧ c.metadata.file_size = some 11) ∧
      (decideFile false [] "a.pdf" "h1" = .new →
        (processFile splitWhole "T1" false
          { processed_log := [], all_chunks := [], stats := {} } fileV1).stats.new_files
          = ({} : Stats).new_files + 1) ∧
      (decideFile false [] "a.pdf" "h1" = .reprocess →
        (processFile splitWhole "T1" false
          { processed_log := [], all_chunks := [], stats := {} } fileV1).stats.updated_files
          = ({} : Stats).updated_files + 1) :=
  pdf_file_fully_processed splitWhole "T1" false
    { processed_log := [], all_chunks := [], stats := {} } fileV1 "h1"
    [({ page_content := "old content", metadata := {} } : Document)]
    (by decide) rfl rfl (by decide)

/-- Per-file processing only ever appends to the error list and never
touches the total file count. -/
theorem processFile_stats_shape
    (split : SplitterPolicy → String → List String) (now : String) (force : Bool)
    (st : LoopState) (f : CandidateFile) :
    (∃ tl, (processFile split now force st f).stats.processing_errors
        = st.stats.processing_errors ++ tl) ∧
    (processFile split now force st f).stats.total_files = st.stats.total_files := by
  obtain ⟨fp, fk, hr, lr, fs⟩ := f
  cases hr with
  | error e => exact ⟨⟨_, rfl⟩, rfl⟩
  | ok h =>
      cases hdec : decideFile force st.processed_log fk h with
      | skip =>
          simp only [processFile, hdec]
          exact ⟨⟨[], by simp⟩, trivial⟩
      | reprocess =>
          cases hp : strEndsWith fp ".pdf" with
          | false =>
              simp only [processFile, hdec, hp, Bool.false_eq_true, if_false]
              exact ⟨⟨[], by simp⟩, trivial⟩
          | true =>
              cases lr with
              | error e =>
                  simp only [processFile, hdec, hp, if_true]
                  exact ⟨⟨_, rfl⟩, trivial⟩
              | ok docs =>
                  simp only [processFile, hdec, hp, if_true]
                  exact ⟨⟨[], by simp⟩, trivial⟩
      | new =>
          cases hp : strEndsWith fp ".pdf" with
          | false =>
              simp only [processFile, hdec, hp, Bool.false_eq_true, if_false]
              exact ⟨⟨[], by simp⟩, trivial⟩
          | true =>
              cases lr with
              | error e =>
                  simp only [processFile, hdec, hp, if_true]
                  exact ⟨⟨_, rfl⟩, trivial⟩
              | ok docs =>
                  simp only [processFile, hdec, hp, if_true]
                  exact ⟨⟨[], by simp⟩, trivial⟩

/-- The whole per-file loop only appends to the error list and preserves
the total file count. -/
theorem foldl_stats_shape
    (split : SplitterPolicy → String → List String) (now : String) (force : Bool)
    (files : List CandidateFile) : ∀ st : LoopState,
    (∃ tl, (files.foldl (processFile split now force) st).stats.processing_errors
        = st.stats.processing_errors ++ tl) ∧
    (files.foldl (processFile split now force) st).stats.total_files
      = st.stats.total_files := by
  induction files with
  | nil => intro st; exact ⟨⟨[], by simp⟩, rfl⟩
  | cons g rest ih =>
      intro st
      obtain ⟨⟨tl1, h1⟩, h2⟩ := processFile_stats_shape split now force st g
      obtain ⟨⟨tl2, h3⟩, h4⟩ := ih (processFile split now force st g)
      refine ⟨⟨tl1 ++ tl2, ?_⟩, ?_⟩
      · rw [List.foldl_cons, h3, h1, List.append_assoc]
      · rw [List.foldl_cons, h4, h2]

/-- C9: an error raised while processing one file is caught and recorded as
an entry of the error list, the loop resumes with the remaining files from
the same state, and the returned statistics still cover the whole run. -/
theorem per_file_error_recorded_and_isolated
    (split : SplitterPolicy → String → List String) (now : String) (force : Bool)
    (pre post : List CandidateFile) (bad : CandidateFile) (e : String)
    (diskManifest : Manifest) (index : List Document) (upsertOk : Bool)
    (hbad : bad.hashResult = .error e) :
    (∀ init : LoopState,
      List.foldl (processFile split now force) init (pre ++ bad :: post) =
        List.foldl (processFile split now force)
          (recordError (List.foldl (processFile split now force) init pre)
            ("Error processing " ++ bad.file_path ++ ": " ++ e)) post) ∧
    ("Error processing " ++ bad.file_path ++ ": " ++ e) ∈
      (runIngestion split now (pre ++ bad :: post) force diskManifest index
        upsertOk).stats.processing_errors ∧
    (runIngestion split now (pre ++ bad :: post) force diskManifest index
        upsertOk).stats.total_files = (pre ++ bad :: post).length := by
  have hstep : ∀ st : LoopState, processFile split now force st bad
      = recordError st ("Error processing " ++ bad.file_path ++ ": " ++ e) := by
    intro st
    unfold processFile
    rw [hbad]
  have hcont : ∀ init : LoopState,
      List.foldl (processFile split now force) init (pre ++ bad :: post) =
        List.foldl (processFile split now force)
          (recordError (List.foldl (processFile split now force) init pre)
            ("Error processing " ++ bad.file_path ++ ": " ++ e)) post := by
    intro init
    rw [List.foldl_append, List.foldl_cons, hstep]
  refine ⟨hcont, ?_, ?_⟩
  · have hmem : ("Error processing " ++ bad.file_path ++ ": " ++ e) ∈
        ((pre ++ bad :: post).foldl (processFile split now force)
          { processed_log := diskManifest, all_chunks := [],
            stats := { total_files := (pre ++ bad :: post).length } }).stats.processing_errors := by
      rw [hcont]
      obtain ⟨⟨tl, htl⟩, _⟩ := foldl_stats_shape split now force post
        (recordError (List.foldl (processFile split now force)
          { processed_log := diskManifest, all_chunks := [],
            stats := { total_files := (pre ++ bad :: post).length } } pre)
          ("Error processing " ++ bad.file_path ++ ": " ++ e))
      rw [htl]
      apply List.mem_append_left
      apply List.mem_append_right
      exact List.mem_singleton.mpr rfl
    unfold runIngestion
    by_cases hemp : ((pre ++ bad :: post).foldl (processFile split now force)
        { processed_log := diskManifest, all_chunks := [],
          stats := { total_files := (pre ++ bad :: post).length } }).all_chunks.isEmpty
    · simp only [hemp, if_true]
      exact hmem
    · simp only [hemp, Bool.false_eq_true, if_false]
      cases upsertOk with
      | true => simp only [if_true]; exact hmem
      | false =>
          simp only [Bool.false_eq_true, if_false]
          exact List.mem_append_left _ hmem
  · have htot := (foldl_stats_shape split now force (pre ++ bad :: post)
      { processed_log := diskManifest, all_chunks := [],
        stats := { total_files := (pre ++ bad :: post).length } }).2
    unfold runIngestion
    by_cases hemp : ((pre ++ bad :: post).foldl (processFile split now force)
        { processed_log := diskManifest, all_chunks := [],
          stats := { total_files := (pre ++ bad :: post).length } }).all_chunks.isEmpty
    · simp only [hemp, if_true]
      exact htot
    · simp only [hemp, Bool.false_eq_true, if_false]
      cases upsertOk with
      | true => simp only [if_true]; exact htot
      | false => simp only [Bool.false_eq_true, if_false]; exact htot

/-- Witness for C9 on a run of three files whose middle file fails to
hash. -/
theorem per_file_error_recorded_and_isolated_witness :
    ("Error processing data/bad.pdf: Permission denied") ∈
      (runIngestion splitWhole "T" [fileV1,
        { file_path := "data/bad.pdf", file_key := "bad.pdf",
          hashResult := .error "Permission denied", loadResult := .ok [],
          file_size := 0 }, fileV2] false [] [] true).stats.processing_errors ∧
    (runIngestion splitWhole "T" [fileV1,
        { file_path := "data/bad.pdf", file_key := "bad.pdf",
          hashResult := .error "Permission denied", loadResult := .ok [],
          file_size := 0 }, fileV2] false [] [] true).stats.total_files = 3 :=
  ⟨(per_file_error_recorded_and_isolated splitWhole "T" false [fileV1] [fileV2]
      { file_path := "data/bad.pdf", file_key := "bad.pdf",
        hashResult := .error "Permission denied", loadResult := .ok [],
        file_size := 0 } "Permission denied" [] [] true rfl).2.1,
   (per_file_error_recorded_and_isolated splitWhole "T" false [fileV1] [fileV2]
      { file_path := "data/bad.pdf", file_key := "bad.pdf",
        hashResult := .error "Permission denied", loadResult := .ok [],
        file_size := 0 } "Permission denied" [] [] true rfl).2.2⟩

/-- Per-file processing never changes the stored entry of a different
key. -/
theorem processFile_lookup_other
    (split : SplitterPolicy → String → List String) (now : String) (force : Bool)
    (st : LoopState) (f : CandidateFile) (k : String) (hk : k ≠ f.file_key) :
    lookupLog (processFile split now force st f).processed_log k
      = lookupLog st.processed_log k := by
  obtain ⟨fp, fk, hr, lr, fs⟩ := f
  dsimp only at hk
  cases hr with
  | error e => rfl
  | ok h =>
      cases hdec : decideFile force st.processed_log fk h with
      | skip => simp [processFile, hdec]
      | reprocess =>
          cases hp : strEndsWith fp ".pdf" with
          | false => simp [processFile, hdec, hp]
          | true =>
              cases lr with
              | error e => simp [processFile, hdec, hp]
              | ok docs =>
                  simp only [processFile, hdec, hp, if_true]
                  exact lookupLog_setEntry_ne _ _ _ _ hk
      | new =>
          cases hp : strEndsWith fp ".pdf" with
          | false => simp [processFile, hdec, hp]
          | true =>
              cases lr with
              | error e => simp [processFile, hdec, hp]
              | ok docs =>
                  simp only [processFile, hdec, hp, if_true]
                  exact lookupLog_setEntry_ne _ _ _ _ hk

/-- The per-file loop never changes the stored entry of a key that belongs
to none of the processed files. -/
theorem foldl_lookup_other
    (split : SplitterPolicy → String → List String) (now : String) (force : Bool)
    (files : List CandidateFile) :
    ∀ (st : LoopState) (k : String), (∀ f ∈ files, k ≠ f.file_key) →
    lookupLog (files.foldl (processFile split now force) st).processed_log k
      = lookupLog st.processed_log k := by
  induction files with
  | nil => intro st k _; rfl
  | cons g rest ih =>
      intro st k hk
      rw [List.foldl_cons, ih _ k (fun f hf => hk f (List.mem_cons_of_mem _ hf)),
        processFile_lookup_other split now force st g k (hk g (List.mem_cons_self _ _))]

/-- After a forceless pass over a PDF file that hashes and loads, the
in-memory log stores that key with the current hash, whatever the decision
was. -/
theorem processFile_records
    (split : SplitterPolicy → String → List String) (now : String)
    (st : LoopState) (f : CandidateFile) (h : String) (docs : List Document)
    (hh : f.hashResult = .ok h) (hl : f.loadResult = .ok docs)
    (hp : strEndsWith f.file_path ".pdf" = true) :
    ∃ e : LogEntry,
      lookupLog (processFile split now false st f).processed_log f.file_key = some e ∧
      e.hash = h := by
  obtain ⟨fp, fk, hr, lr, fs⟩ := f
  dsimp only at hh hl hp ⊢
  subst hh
  subst hl
  cases hdec : decideFile false st.processed_log fk h with
  | skip =>
      cases hl2 : lookupLog st.processed_log fk with
      | none => simp [decideFile, hl2] at hdec
      | some e0 =>
          by_cases he : e0.hash = h
          · exact ⟨e0, by simp [processFile, hdec, hl2], he⟩
          · simp [decideFile, hl2, he] at hdec
  | reprocess =>
      simp only [processFile, hdec, hp, if_true]
      exact ⟨_, lookupLog_setEntry_self _ _ _, rfl⟩
  | new =>
      simp only [processFile, hdec, hp, if_true]
      exact ⟨_, lookupLog_setEntry_self _ _ _, rfl⟩

/-- After a full forceless pass over PDF files with pairwise distinct keys
that all hash and load, the in-memory log stores every file with its
current hash. -/
theorem foldl_records_all
    (split : SplitterPolicy → String → List String) (now : String)
    (files : List CandidateFile)
    (hkeys : (files.map CandidateFile.file_key).Nodup)
    (hok : ∀ f ∈ files, strEndsWith f.file_path ".pdf" = true ∧
      (∃ h, f.hashResult = .ok h) ∧ ∃ docs, f.loadResult = .ok docs) :
    ∀ st : LoopState, ∀ f ∈ files, ∃ h e,
      f.hashResult = .ok h ∧
      lookupLog (files.foldl (processFile split now false) st).processed_log f.file_key
        = some e ∧ e.hash = h := by
  induction files with
  | nil => intro st f hf; exact absurd hf (List.not_mem_nil f)
  | cons g rest ih =>
      intro st f hf
      rw [List.map_cons, List.nodup_cons] at hkeys
      rcases List.mem_cons.mp hf with rfl | hf2
      · obtain ⟨hp, ⟨h, hh⟩, ⟨docs, hl⟩⟩ := hok f (List.mem_cons_self _ _)
        obtain ⟨e, hlook, hhash⟩ := processFile_records split now st f h docs hh hl hp
        refine ⟨h, e, hh, ?_, hhash⟩
        rw [List.foldl_cons]
        rw [foldl_lookup_other split now false rest _ f.file_key ?_]
        · exact hlook
        · intro f2 hf2 heq
          rw [heq] at hkeys
          exact hkeys.1 (List.mem_map_of_mem CandidateFile.file_key hf2)
      · obtain ⟨h, e, hh, hlook, hhash⟩ :=
          ih hkeys.2 (fun f2 hf3 => hok f2 (List.mem_cons_of_mem _ hf3))
            (processFile split now false st g) f hf2
        exact ⟨h, e, hh, by rw [List.foldl_cons]; exact hlook, hhash⟩

/-- When every candidate file already has a matching manifest entry and
force is not set, the per-file loop only bumps the skipped counter. -/
theorem foldl_all_skip
    (split : SplitterPolicy → String → List String) (now : String)
    (files : List CandidateFile) :
    ∀ st : LoopState,
    (∀ f ∈ files, ∃ h e, f.hashResult = .ok h ∧
      lookupLog st.processed_log f.file_key = some e ∧ e.hash = h) →
    files.foldl (processFile split now false) st
      = { st with stats := { st.stats with
          skipped_files := st.stats.skipped_files + files.length } } := by
  induction files with
  | nil => intro st _; simp
  | cons g rest ih =>
      intro st hall
      obtain ⟨h, e, hh, hlook, hhash⟩ := hall g (List.mem_cons_self _ _)
      have hdec : decideFile false st.processed_log g.file_key h = .skip := by
        simp [decideFile, hlook, hhash]
      have hstep : processFile split now false st g
          = { st with stats :=
              { st.stats with skipped_files := st.stats.skipped_files + 1 } } := by
        obtain ⟨fp, fk, hr, lr, fs⟩ := g
        dsimp only at hh hdec ⊢
        subst hh
        simp [processFile, hdec]
      rw [List.foldl_cons, hstep, ih _ ?_]
      · have harith : st.stats.skipped_files + 1 + rest.length
            = st.stats.skipped_files + (rest.length + 1) := by omega
        simp only [List.length_cons, harith]
      · intro f hf
        obtain ⟨h2, e2, hh2, hlook2, hhash2⟩ := hall f (List.mem_cons_of_mem _ hf)
        exact ⟨h2, e2, hh2, hlook2, hhash2⟩

/-- A run whose loop accumulated no chunks returns early, touching neither
the manifest file nor the index. -/
theorem runIngestion_early_return
    (split : SplitterPolicy → String → List String) (now : String)
    (files : List CandidateFile) (force : Bool) (m : Manifest)
    (idx : List Document) (u : Bool)
    (hemp : ((files.foldl (processFile split now force)
      { processed_log := m, all_chunks := [],
        stats := { total_files := files.length } }).all_chunks).isEmpty = true) :
    runIngestion split now files force m idx u =
      { stats := (files.foldl (processFile split now force)
          { processed_log := m, all_chunks := [],
            stats := { total_files := files.length } }).stats,
        savedManifest := false, persistedManifest := m, index := idx } := by
  unfold runIngestion
  simp [hemp]

/-- C5 amended: when all candidate files are PDF files with pairwise
distinct keys that hash and load, and the first run really saved its
manifest (it produced at least one chunk and its upsert succeeded), a
second forceless run over the unchanged files reports zero new files, zero
updated files, everything skipped, and leaves both the index and the
persisted manifest exactly as the first run left them. -/
theorem second_run_unchanged_skips_all
    (split : SplitterPolicy → String → List String) (now1 now2 : String)
    (files : List CandidateFile) (m0 : Manifest) (idx0 : List Document)
    (upsertOk2 : Bool)
    (hkeys : (files.map CandidateFile.file_key).Nodup)
    (hok : ∀ f ∈ files, strEndsWith f.file_path ".pdf" = true ∧
      (∃ h, f.hashResult = .ok h) ∧ ∃ docs, f.loadResult = .ok docs)
    (hsaved : (runIngestion split now1 files false m0 idx0 true).savedManifest = true) :
    (runIngestion split now2 files false
      (runIngestion split now1 files false m0 idx0 true).persistedManifest
      (runIngestion split now1 files false m0 idx0 true).index
      upsertOk2).stats.new_files = 0 ∧
    (runIngestion split now2 files false
      (runIngestion split now1 files false m0 idx0 true).persistedManifest
      (runIngestion split now1 files false m0 idx0 true).index
      upsertOk2).stats.updated_files = 0 ∧
    (runIngestion split now2 files false
      (runIngestion split now1 files false m0 idx0 true).persistedManifest
      (runIngestion split now1 files false m0 idx0 true).index
      upsertOk2).stats.skipped_files = files.length ∧
    (runIngestion split now2 files false
      (runIngestion split now1 files false m0 idx0 true).persistedManifest
      (runIngestion split now1 files false m0 idx0 true).index
      upsertOk2).stats.total_files = files.length ∧
    (runIngestion split now2 files false
      (runIngestion split now1 files false m0 idx0 true).persistedManifest
      (runIngestion split now1 files false m0 idx0 true).index
      upsertOk2).index
      = (runIngestion split now1 files false m0 idx0 true).index ∧
    (runIngestion split now2 files false
      (runIngestion split now1 files false m0 idx0 true).persistedManifest
      (runIngestion split now1 files false m0 idx0 true).index
      upsertOk2).persistedManifest
      = (runIngestion split now1 files false m0 idx0 true).persistedManifest := by
  have hpm : (runIngestion split now1 files false m0 idx0 true).persistedManifest
      = (files.foldl (processFile split now1 false)
          { processed_log := m0, all_chunks := [],
            stats := { total_files := files.length } }).processed_log := by
    unfold runIngestion at hsaved ⊢
    by_cases hemp : ((files.foldl (processFile split now1 false)
        { processed_log := m0, all_chunks := [],
          stats := { total_files := files.length } }).all_chunks).isEmpty
    · simp [hemp] at hsaved
    · simp [hemp]
  have hrec := foldl_records_all split now1 files hkeys hok
    { processed_log := m0, all_chunks := [], stats := { total_files := files.length } }
  have hskip := foldl_all_skip split now2 files
    { processed_log := (runIngestion split now1 files false m0 idx0 true).persistedManifest,
      all_chunks := [], stats := { total_files := files.length } }
    (by
      intro f hf
      obtain ⟨h, e, hh, hlook, hhash⟩ := hrec f hf
      refine ⟨h, e, hh, ?_, hhash⟩
      show lookupLog (runIngestion split now1 files false m0 idx0 true).persistedManifest
        f.file_key = some e
      rw [hpm]
      exact hlook)
  have hemp2 : ((files.foldl (processFile split now2 false)
      { processed_log := (runIngestion split now1 files false m0 idx0 true).persistedManifest,
        all_chunks := [],
        stats := { total_files := files.length } }).all_chunks).isEmpty = true := by
    rw [hskip]
    rfl
  have hr2 := runIngestion_early_return split now2 files false
    (runIngestion split now1 files false m0 idx0 true).persistedManifest
    (runIngestion split now1 files false m0 idx0 true).index upsertOk2 hemp2
  rw [hr2, hskip]
  refine ⟨rfl, rfl, by simp, rfl, rfl, rfl⟩

/-- Witness for C5 on a concrete one-file folder ingested twice. -/
theorem second_run_unchanged_skips_all_witness :
    (runIngestion splitWhole "T2" [fileV1] false
      (runIngestion splitWhole "T1" [fileV1] false [] [] true).persistedManifest
      (runIngestion splitWhole "T1" [fileV1] false [] [] true).index
      true).stats.new_files = 0 ∧
    (runIngestion splitWhole "T2" [fileV1] false
      (runIngestion splitWhole "T1" [fileV1] false [] [] true).persistedManifest
      (runIngestion splitWhole "T1" [fileV1] false [] [] true).index
      true).stats.updated_files = 0 ∧
    (runIngestion splitWhole "T2" [fileV1] false
      (runIngestion splitWhole "T1" [fileV1] false [] [] true).persistedManifest
      (runIngestion splitWhole "T1" [fileV1] false [] [] true).index
      true).stats.skipped_files = [fileV1].length ∧
    (runIngestion splitWhole "T2" [fileV1] false
      (runIngestion splitWhole "T1" [fileV1] false [] [] true).persistedManifest
      (runIngestion splitWhole "T1" [fileV1] false [] [] true).index
      true).stats.total_files = [fileV1].length ∧
    (runIngestion splitWhole "T2" [fileV1] false
      (runIngestion splitWhole "T1" [fileV1] false [] [] true).persistedManifest
      (runIngestion splitWhole "T1" [fileV1] false [] [] true).index
      true).index
      = (runIngestion splitWhole "T1" [fileV1] false [] [] true).index ∧
    (runIngestion splitWhole "T2" [fileV1] false
      (runIngestion splitWhole "T1" [fileV1] false [] [] true).persistedManifest
      (runIngestion splitWhole "T1" [fileV1] false [] [] true).index
      true).persistedManifest
      = (runIngestion splitWhole "T1" [fileV1] false [] [] true).persistedManifest :=
  second_run_unchanged_skips_all splitWhole "T1" "T2" [fileV1] [] [] true
    (by decide)
    (by
      intro f hf
      rw [List.mem_singleton] at hf
      subst hf
      exact ⟨by decide, ⟨"h1", rfl⟩,
        ⟨[({ page_content := "old content", metadata := {} } : Document)], rfl⟩⟩)
    (by decide)

/-- While the estimate is over budget the pruning loop keeps folding, so it
ends under budget provided every generated summary fits the budget. -/
theorem pruneMemory_bound (estTurn : Turn → Nat) (estText : String → Nat)
    (summarize : Turn → String → String)
    (hsum : ∀ t s, estText (summarize t s) ≤ memory_max_tokens) :
    ∀ (l : List Turn) (s : String), (l ≠ [] ∨ estText s ≤ memory_max_tokens) →
    totalTokenEstimate estTurn estText (pruneMemory estTurn estText summarize l s)
      ≤ memory_max_tokens := by
  intro l
  induction l with
  | nil =>
      intro s hs
      rcases hs with hs | hs
      · exact absurd rfl hs
      · simpa [pruneMemory, totalTokenEstimate] using hs
  | cons t rest ih =>
      intro s _
      by_cases hle : totalTokenEstimate estTurn estText
          { summary := s, recent_turns := t :: rest } ≤ memory_max_tokens
      · simpa [pruneMemory, hle] using hle
      · have hrec := ih (summarize t s) (Or.inr (hsum t s))
        simpa [pruneMemory, hle] using hrec

/-- The pruning loop drops some prefix of the turns from verbatim storage
and folds exactly that prefix, oldest first, into the summary. -/
theorem pruneMemory_decomposition (estTurn : Turn → Nat) (estText : String → Nat)
    (summarize : Turn → String → String) :
    ∀ (l : List Turn) (s : String), ∃ k,
      (pruneMemory estTurn estText summarize l s).recent_turns = l.drop k ∧
      (pruneMemory estTurn estText summarize l s).summary
        = foldSummary summarize (l.take k) s := by
  intro l
  induction l with
  | nil => intro s; exact ⟨0, by simp [pruneMemory, foldSummary]⟩
  | cons t rest ih =>
      intro s
      by_cases hle : totalTokenEstimate estTurn estText
          { summary := s, recent_turns := t :: rest } ≤ memory_max_tokens
      · exact ⟨0, by simp [pruneMemory, hle], by simp [pruneMemory, hle, foldSummary]⟩
      · obtain ⟨k, h1, h2⟩ := ih (summarize t s)
        refine ⟨k + 1, ?_, ?_⟩
        · simpa [pruneMemory, hle] using h1
        · simpa [pruneMemory, hle, foldSummary] using h2

/-- C8: (spec-modelled) after every append the total token estimate of the
verbatim turns plus the summary stays at most memory_max_tokens, provided
every provider-generated summary itself fits the budget; and no turn is
silently discarded: the kept turns are a suffix of the appended turn
sequence and exactly the dropped oldest prefix is folded, in order, into
the running summary through summarization calls. -/
theorem memory_append_bounded_and_lossless
    (estTurn : Turn → Nat) (estText : String → Nat)
    (summarize : Turn → String → String) (st : MemoryState) (t : Turn)
    (hsum : ∀ u s, estText (summarize u s) ≤ memory_max_tokens) :
    totalTokenEstimate estTurn estText (appendTurn estTurn estText summarize st t)
      ≤ memory_max_tokens ∧
    ∃ k, (appendTurn estTurn estText summarize st t).recent_turns
          = (st.recent_turns ++ [t]).drop k ∧
        (appendTurn estTurn estText summarize st t).summary
          = foldSummary summarize ((st.recent_turns ++ [t]).take k) st.summary := by
  unfold appendTurn
  constructor
  · apply pruneMemory_bound estTurn estText summarize hsum
    left
    simp
  · exact pruneMemory_decomposition estTurn estText summarize _ _

/-- Witness for C8 with a concrete tokenizer estimate and a concrete
summarizer appending to an empty memory. -/
theorem memory_append_bounded_and_lossless_witness :
    totalTokenEstimate (fun u => u.question.length + u.answer.length) String.length
      (appendTurn (fun u => u.question.length + u.answer.length) String.length
        (fun _ _ => "summary so far") { summary := "", recent_turns := [] }
        { question := "q", answer := "a" }) ≤ memory_max_tokens ∧
    ∃ k, (appendTurn (fun u => u.question.length + u.answer.length) String.length
        (fun _ _ => "summary so far") { summary := "", recent_turns := [] }
        { question := "q", answer := "a" }).recent_turns
          = (([] : List Turn) ++ [({ question := "q", answer := "a" } : Turn)]).drop k ∧
      (appendTurn (fun u => u.question.length + u.answer.length) String.length
        (fun _ _ => "summary so far") { summary := "", recent_turns := [] }
        { question := "q", answer := "a" }).summary
          = foldSummary (fun _ _ => "summary so far")
              ((([] : List Turn) ++ [({ question := "q", answer := "a" } : Turn)]).take k) "" :=
  memory_append_bounded_and_lossless
    (fun u => u.question.length + u.answer.length) String.length
    (fun _ _ => "summary so far") ({ summary := "", recent_turns := [] } : MemoryState)
    ({ question := "q", answer := "a" } : Turn)
    (fun _ _ => by show String.length "summary so far" ≤ memory_max_tokens; decide)

end RagEngine
